import Mathlib

/-!
Verification development for the `resiliencex` library: shallow embeddings of
the circuit breaker, retry engine, token-bucket rate limiter, bulkhead,
timeout wrapper and executor composition, together with theorems settling the
specification claims.  Time is modelled as a natural number (for the circuit
breaker, matching Go durations compared with `>`), respectively as a rational
number of seconds (for the token bucket).  Go `error` values are modelled by
the inductive `GoErr`; a `nil` error is `Option.none`.
-/

namespace Resilience

/-- The error taxonomy: the five library sentinels, the two cancellation
errors carried by a context, and opaque user-operation errors. -/
inductive GoErr where
  | circuitOpen
  | maxRetriesExceeded
  | rateLimitExceeded
  | bulkheadFull
  | timeoutErr
  | deadlineExceeded
  | canceled
  | opErr (n : Nat)
deriving DecidableEq

/-- Circuit-breaker states, from `CircuitState` in the source. -/
inductive CircuitState where
  | closed
  | opened
  | halfOpen
deriving DecidableEq

/-- Circuit-breaker statistics of one generation, from `counts`. -/
structure Counts where
  requests : Nat
  totalSuccesses : Nat
  totalFailures : Nat
  consecSuccess : Nat
  consecFailures : Nat
deriving DecidableEq

/-- Circuit-breaker configuration (the fields used by the state machine).
`failureThreshold` is a rational standing for the Go `float64`. -/
structure CBConfig where
  maxRequests : Nat
  interval : Nat
  timeout : Nat
  failureThreshold : ℚ
  minRequests : Nat
deriving DecidableEq

/-- The circuit breaker's mutable state, from `circuitBreaker`. -/
structure CB where
  config : CBConfig
  state : CircuitState
  counts : Counts
  stateTime : Nat
deriving DecidableEq

/-- `toNewGeneration`: zero the counts and restamp `stateTime`. -/
def toNewGeneration (cb : CB) (now : Nat) : CB :=
  { cb with counts := ⟨0, 0, 0, 0, 0⟩, stateTime := now }

/-- `currentGeneration`: the generation id is derived from the state-entry
timestamp (`uint64(stateTime.UnixNano())` in the source). -/
def currentGeneration (cb : CB) : Nat :=
  cb.stateTime

/-- `setState`: no-op when the state is unchanged; otherwise record the new
state and entry time, and zero the counts exactly when the new state is
Closed. -/
def setState (cb : CB) (state : CircuitState) (now : Nat) : CB :=
  if cb.state = state then cb
  else
    let cb := { cb with state := state, stateTime := now }
    if cb.state = .closed then toNewGeneration cb now else cb

/-- The failure ratio `float64(totalFailures) / float64(requests)`,
modelled over ℚ. -/
def failureFrac (cb : CB) : ℚ :=
  (cb.counts.totalFailures : ℚ) / (cb.counts.requests : ℚ)

/-- `readyToTrip`: below `MinRequests` never trip; otherwise trip when the
failure ratio reaches `FailureThreshold`. -/
def readyToTrip (cb : CB) : Bool :=
  if cb.counts.requests < cb.config.minRequests then false
  else decide (cb.config.failureThreshold ≤ failureFrac cb)

/-- `onSuccess`: bump success tallies; in HalfOpen, re-close after
`MaxRequests` consecutive successes. -/
def onSuccess (cb : CB) (now : Nat) : CB :=
  let cb := { cb with
    counts.totalSuccesses := cb.counts.totalSuccesses + 1,
    counts.consecSuccess := cb.counts.consecSuccess + 1,
    counts.consecFailures := 0 }
  if cb.state = .halfOpen then
    if cb.config.maxRequests ≤ cb.counts.consecSuccess then setState cb .closed now
    else cb
  else cb

/-- `onFailure`: bump failure tallies; any HalfOpen failure re-opens, a
Closed failure opens when `readyToTrip`. -/
def onFailure (cb : CB) (now : Nat) : CB :=
  let cb := { cb with
    counts.totalFailures := cb.counts.totalFailures + 1,
    counts.consecFailures := cb.counts.consecFailures + 1,
    counts.consecSuccess := 0 }
  if cb.state = .halfOpen then setState cb .opened now
  else if readyToTrip cb then setState cb .opened now
  else cb

/-- Result of `beforeRequest`: the updated breaker, the generation tag
handed to `afterRequest`, and the admission error (if any). -/
structure BeforeResult where
  cb : CB
  generation : Nat
  err : Option GoErr
deriving DecidableEq

/-- `beforeRequest`: the admission protocol.  Closed rolls the generation
after `Interval` and admits; Open admits (transitioning to HalfOpen, with
generation tag 0 and without incrementing `requests`) only after `Timeout`;
HalfOpen admits while `requests < MaxRequests`. -/
def beforeRequest (cb : CB) (now : Nat) : BeforeResult :=
  match cb.state with
  | .closed =>
      let cb := if cb.config.interval < now - cb.stateTime then toNewGeneration cb now else cb
      let cb := { cb with counts.requests := cb.counts.requests + 1 }
      ⟨cb, currentGeneration cb, none⟩
  | .opened =>
      if cb.config.timeout < now - cb.stateTime then
        ⟨setState cb .halfOpen now, 0, none⟩
      else ⟨cb, 0, some .circuitOpen⟩
  | .halfOpen =>
      if cb.config.maxRequests ≤ cb.counts.requests then ⟨cb, 0, some .circuitOpen⟩
      else
        let cb := { cb with counts.requests := cb.counts.requests + 1 }
        ⟨cb, currentGeneration cb, none⟩

/-- `afterRequest`: discard reports from another generation, else record
success or failure. -/
def afterRequest (cb : CB) (now : Nat) (generation : Nat) (success : Bool) : CB :=
  if generation ≠ currentGeneration cb then cb
  else if success then onSuccess cb now else onFailure cb now

/-- Result of one circuit-breaker `Execute` call: updated breaker, returned
error, and whether the wrapped operation was invoked. -/
structure ExecResult where
  cb : CB
  err : Option GoErr
  invoked : Bool
deriving DecidableEq

/-- `Execute`: run `beforeRequest` at time `nowB`; on rejection return the
admission error without invoking the operation; otherwise invoke the
operation (whose outcome is `res`), record the result at time `nowA`, and
return the operation's error. -/
def cbExecute (cb : CB) (nowB nowA : Nat) (res : Option GoErr) : ExecResult :=
  let r := beforeRequest cb nowB
  match r.err with
  | some e => ⟨r.cb, some e, false⟩
  | none => ⟨afterRequest r.cb nowA r.generation res.isNone, res, true⟩

/-- `Reset`: begin a new generation and force the state to Closed. -/
def cbReset (cb : CB) (now : Nat) : CB :=
  setState (toNewGeneration cb now) .closed now

/-- Run a sequence of `Execute` calls; each step carries the admission time,
the recording time, and the operation outcome. -/
def runCB (cb : CB) (steps : List (Nat × Nat × Option GoErr)) : CB :=
  steps.foldl (fun c s => (cbExecute c s.1 s.2.1 s.2.2).cb) cb

example :
    (cbExecute ⟨⟨5, 60, 30, 6/10, 10⟩, .closed, ⟨0, 0, 0, 0, 0⟩, 0⟩ 1 1 none).err = none := by
  decide

/-- C5: in the Open state with `now − stateTime ≤ Timeout`, `Execute`
returns `CircuitOpen`, does not invoke the operation, and leaves the breaker
unchanged. -/
theorem circuit_open_rejects_c5 (cb : CB) (nowB nowA : Nat) (res : Option GoErr)
    (hs : cb.state = .opened) (ht : nowB - cb.stateTime ≤ cb.config.timeout) :
    cbExecute cb nowB nowA res = ⟨cb, some .circuitOpen, false⟩ := by
  have hnot : ¬ cb.config.timeout < nowB - cb.stateTime := not_lt.mpr ht
  simp [cbExecute, beforeRequest, hs, hnot]

/-- Witness for C5 at a concrete Open breaker whose timeout has not elapsed. -/
theorem circuit_open_rejects_c5_witness :
    cbExecute ⟨⟨5, 60, 30, 6/10, 10⟩, .opened, ⟨4, 1, 3, 0, 3⟩, 100⟩ 120 121 none
      = ⟨⟨⟨5, 60, 30, 6/10, 10⟩, .opened, ⟨4, 1, 3, 0, 3⟩, 100⟩, some .circuitOpen, false⟩ :=
  circuit_open_rejects_c5 _ 120 121 none rfl (by decide)

lemma toNewGeneration_config (cb : CB) (now : Nat) :
    (toNewGeneration cb now).config = cb.config := rfl

lemma setState_config (cb : CB) (s : CircuitState) (now : Nat) :
    (setState cb s now).config = cb.config := by
  simp only [setState, toNewGeneration]
  split <;> (try split) <;> rfl

lemma onSuccess_config (cb : CB) (now : Nat) :
    (onSuccess cb now).config = cb.config := by
  simp only [onSuccess]
  split <;> (try split) <;> simp [setState_config]

lemma onFailure_config (cb : CB) (now : Nat) :
    (onFailure cb now).config = cb.config := by
  simp only [onFailure]
  split <;> (try split) <;> simp [setState_config]

lemma beforeRequest_config (cb : CB) (now : Nat) :
    (beforeRequest cb now).cb.config = cb.config := by
  obtain ⟨cfg, st, cnts, t⟩ := cb
  cases st <;> simp only [beforeRequest] <;> (try split) <;>
    simp [toNewGeneration, setState_config]

lemma afterRequest_config (cb : CB) (now generation : Nat) (success : Bool) :
    (afterRequest cb now generation success).config = cb.config := by
  simp only [afterRequest]
  split
  · rfl
  · split
    · exact onSuccess_config cb now
    · exact onFailure_config cb now

lemma cbExecute_config (cb : CB) (nowB nowA : Nat) (res : Option GoErr) :
    (cbExecute cb nowB nowA res).cb.config = cb.config := by
  simp only [cbExecute]
  split
  · exact beforeRequest_config cb nowB
  · rw [afterRequest_config]
    exact beforeRequest_config cb nowB

lemma onSuccess_state_closed (cb : CB) (now : Nat) (h : cb.state = .closed) :
    (onSuccess cb now).state = .closed := by
  simp [onSuccess, h]

/-- The counts update performed by `onFailure` before it looks at the state. -/
def failBump (cb : CB) : CB :=
  { cb with
    counts.totalFailures := cb.counts.totalFailures + 1,
    counts.consecFailures := cb.counts.consecFailures + 1,
    counts.consecSuccess := 0 }

lemma failBump_state (cb : CB) : (failBump cb).state = cb.state := rfl

lemma onFailure_closed_char (cb : CB) (now : Nat) (h : cb.state = .closed) :
    onFailure cb now =
      (if readyToTrip (failBump cb) then setState (failBump cb) .opened now
       else failBump cb) := by
  simp only [onFailure, failBump]
  rw [if_neg (by simp [show cb.state = .closed from h])]

lemma setState_opened_char (cb : CB) (now : Nat) (h : cb.state ≠ .opened) :
    (setState cb .opened now).state = .opened
    ∧ (setState cb .opened now).counts = cb.counts := by
  simp [setState, h]

lemma readyToTrip_le (cb : CB) (h : readyToTrip cb = true) :
    cb.config.failureThreshold ≤ failureFrac cb := by
  simp only [readyToTrip] at h
  split at h
  · exact absurd h (by simp)
  · exact of_decide_eq_true h

lemma readyToTrip_iff (cb : CB) :
    readyToTrip cb = true ↔
      (cb.config.minRequests ≤ cb.counts.requests
        ∧ cb.config.failureThreshold ≤ failureFrac cb) := by
  simp only [readyToTrip]
  split
  · constructor
    · intro hf; exact absurd hf (by simp)
    · rintro ⟨h1, _⟩; omega
  · simp only [decide_eq_true_eq]
    constructor
    · intro hd; exact ⟨by omega, hd⟩
    · rintro ⟨_, h2⟩; exact h2

/-- If a Closed breaker records a failure and the resulting failure ratio is
still below the threshold, the state stays Closed. -/
lemma onFailure_state_closed (cb : CB) (now : Nat) (h : cb.state = .closed)
    (hlt : failureFrac (onFailure cb now) < cb.config.failureThreshold) :
    (onFailure cb now).state = .closed := by
  rw [onFailure_closed_char cb now h] at hlt ⊢
  by_cases htrip : readyToTrip (failBump cb)
  · rw [if_pos htrip] at hlt ⊢
    have h1 : (failBump cb).state ≠ .opened := by
      rw [failBump_state, h]; simp
    obtain ⟨hst, hcnt⟩ := setState_opened_char (failBump cb) now h1
    have hfrac : failureFrac (setState (failBump cb) .opened now)
        = failureFrac (failBump cb) := by
      simp [failureFrac, hcnt]
    have hthr : (failBump cb).config.failureThreshold ≤ failureFrac (failBump cb) :=
      readyToTrip_le _ htrip
    have hcfg : (failBump cb).config = cb.config := rfl
    rw [hfrac, ← hcfg] at hlt
    exact absurd hlt (not_lt.mpr hthr)
  · rw [if_neg htrip]
    rw [failBump_state]
    exact h

lemma beforeRequest_state_closed (cb : CB) (now : Nat) (h : cb.state = .closed) :
    (beforeRequest cb now).cb.state = .closed
    ∧ (beforeRequest cb now).err = none
    ∧ (beforeRequest cb now).generation = currentGeneration (beforeRequest cb now).cb := by
  obtain ⟨cfg, st, cnts, t⟩ := cb
  cases h
  simp only [beforeRequest]
  split <;> simp [toNewGeneration, currentGeneration]

/-- A full `Execute` step that begins Closed and ends with failure ratio
below the threshold leaves the state Closed. -/
lemma cbExecute_state_closed (cb : CB) (nB nA : Nat) (res : Option GoErr)
    (h : cb.state = .closed)
    (hlt : failureFrac (cbExecute cb nB nA res).cb
             < cb.config.failureThreshold) :
    (cbExecute cb nB nA res).cb.state = .closed := by
  obtain ⟨h1, h2, h3⟩ := beforeRequest_state_closed cb nB h
  simp only [cbExecute, h2] at hlt ⊢
  rw [afterRequest, if_neg (by simp [h3])] at hlt ⊢
  rcases res with _ | e
  · simp only [Option.isNone_none, if_true]
    exact onSuccess_state_closed _ nA h1
  · simp only [Option.isNone_some, Bool.false_eq_true, if_false] at hlt ⊢
    have hcfg : (beforeRequest cb nB).cb.config = cb.config := beforeRequest_config cb nB
    exact onFailure_state_closed _ nA h1 (by rw [hcfg]; exact hlt)

lemma runCB_cons (cb : CB) (s : Nat × Nat × Option GoErr)
    (rest : List (Nat × Nat × Option GoErr)) :
    runCB cb (s :: rest) = runCB (cbExecute cb s.1 s.2.1 s.2.2).cb rest := rfl

lemma runCB_config (cb : CB) (steps : List (Nat × Nat × Option GoErr)) :
    (runCB cb steps).config = cb.config := by
  induction steps generalizing cb with
  | nil => rfl
  | cons s rest ih =>
      rw [runCB_cons, ih]
      exact cbExecute_config cb s.1 s.2.1 s.2.2

/-- As long as every reachable state keeps the failure ratio below the
threshold, a Closed breaker stays Closed across any trace of calls. -/
lemma runCB_state_closed (cb : CB) (steps : List (Nat × Nat × Option GoErr))
    (h : cb.state = .closed)
    (H : ∀ i, i < steps.length →
          failureFrac (runCB cb (steps.take (i + 1))) < cb.config.failureThreshold) :
    (runCB cb steps).state = .closed := by
  induction steps generalizing cb with
  | nil => exact h
  | cons s rest ih =>
      have h0 : failureFrac (cbExecute cb s.1 s.2.1 s.2.2).cb
          < cb.config.failureThreshold := by
        have := H 0 (by simp)
        simpa [runCB] using this
      have hc : (cbExecute cb s.1 s.2.1 s.2.2).cb.state = .closed :=
        cbExecute_state_closed cb s.1 s.2.1 s.2.2 h h0
      rw [runCB_cons]
      refine ih _ hc (fun i hi => ?_)
      have := H (i + 1) (by simpa using Nat.succ_lt_succ hi)
      rw [cbExecute_config]
      simpa [runCB_cons] using this

/-- C6: from Closed, a recorded failure opens the circuit exactly when
`requests ≥ MinRequests` and the updated failure ratio reaches
`FailureThreshold`; otherwise the state stays Closed; and along any trace of
calls in which the failure ratio stays below the threshold, the state never
leaves Closed. -/
theorem circuit_trip_criterion_c6 (cb : CB) (now : Nat)
    (h : cb.state = .closed) (hmin : 1 ≤ cb.config.minRequests) :
    ((onFailure cb now).state = .opened ↔
       (cb.config.minRequests ≤ cb.counts.requests ∧
        cb.config.failureThreshold ≤
          ((cb.counts.totalFailures : ℚ) + 1) / (cb.counts.requests : ℚ)))
    ∧ ((onFailure cb now).state ≠ .opened → (onFailure cb now).state = .closed)
    ∧ (∀ steps : List (Nat × Nat × Option GoErr),
        (∀ i, i < steps.length →
          failureFrac (runCB cb (steps.take (i + 1))) < cb.config.failureThreshold) →
        (runCB cb steps).state = .closed) := by
  have hfr : failureFrac (failBump cb) =
      ((cb.counts.totalFailures : ℚ) + 1) / (cb.counts.requests : ℚ) := by
    simp only [failureFrac, failBump]
    push_cast
    ring_nf
  have hreqeq : (failBump cb).counts.requests = cb.counts.requests := rfl
  have hcfg : (failBump cb).config = cb.config := rfl
  have htripiff : readyToTrip (failBump cb) = true ↔
      (cb.config.minRequests ≤ cb.counts.requests ∧
        cb.config.failureThreshold ≤
          ((cb.counts.totalFailures : ℚ) + 1) / (cb.counts.requests : ℚ)) := by
    rw [readyToTrip_iff, hfr, hreqeq, hcfg]
  have h1 : (failBump cb).state ≠ .opened := by rw [failBump_state, h]; simp
  refine ⟨?_, ?_, fun steps H => runCB_state_closed cb steps h H⟩
  · rw [onFailure_closed_char cb now h]
    by_cases htrip : readyToTrip (failBump cb)
    · rw [if_pos htrip]
      exact iff_of_true (setState_opened_char _ now h1).1 (htripiff.mp htrip)
    · rw [if_neg htrip]
      refine iff_of_false ?_ (fun hc => htrip (htripiff.mpr hc))
      rw [failBump_state, h]
      simp
  · intro hne
    rw [onFailure_closed_char cb now h] at hne ⊢
    by_cases htrip : readyToTrip (failBump cb)
    · rw [if_pos htrip] at hne
      exact absurd (setState_opened_char _ now h1).1 hne
    · rw [if_neg htrip, failBump_state]
      exact h

/-- Witness for C6: a Closed breaker with threshold 1/2, MinRequests 3 and
counts requests = 5, totalFailures = 2 trips to Open on the next failure. -/
theorem circuit_trip_criterion_c6_witness :
    (onFailure ⟨⟨2, 60, 30, 1/2, 3⟩, .closed, ⟨5, 2, 2, 0, 2⟩, 7⟩ 9).state = .opened :=
  ((circuit_trip_criterion_c6 ⟨⟨2, 60, 30, 1/2, 3⟩, .closed, ⟨5, 2, 2, 0, 2⟩, 7⟩ 9
      rfl (by decide)).1).mpr ⟨by decide, by norm_num⟩

/-- C10: counts are never zeroed on transitions into Open or HalfOpen: a
`setState` to a non-Closed state keeps the counts; the Open → HalfOpen
admission inside `beforeRequest` keeps the counts (and in particular the
`requests` accumulated while Closed); and the HalfOpen admission check
rejects exactly when that carried-over `requests` has reached
`MaxRequests`. -/
theorem circuit_counts_carryover_c10 (cb : CB) (s : CircuitState) (now : Nat) :
    (s ≠ .closed → (setState cb s now).counts = cb.counts)
    ∧ (cb.state = .opened → cb.config.timeout < now - cb.stateTime →
        (beforeRequest cb now).cb.state = .halfOpen
        ∧ (beforeRequest cb now).cb.counts = cb.counts)
    ∧ (cb.state = .halfOpen →
        ((beforeRequest cb now).err = some .circuitOpen ↔
          cb.config.maxRequests ≤ cb.counts.requests)) := by
  refine ⟨fun hs => ?_, fun ho ht => ?_, fun hh => ?_⟩
  · simp only [setState]
    by_cases h1 : cb.state = s
    · rw [if_pos h1]
    · rw [if_neg h1,
        if_neg (show ¬({ cb with state := s, stateTime := now } : CB).state
          = CircuitState.closed from hs)]
  · obtain ⟨cfg, st, cnts, t⟩ := cb
    cases ho
    simp only [beforeRequest, if_pos ht]
    constructor
    · simp [setState]
    · simp [setState]
  · obtain ⟨cfg, st, cnts, t⟩ := cb
    cases hh
    simp only [beforeRequest]
    split
    · next hge => simp [hge]
    · next hge => simp [hge]

/-- Witness for C10 at concrete breakers: an Open breaker with expired
timeout carries `requests = 5` into HalfOpen, and a HalfOpen breaker with
carried-over `requests = 5 ≥ MaxRequests = 5` rejects admission. -/
theorem circuit_counts_carryover_c10_witness :
    (setState ⟨⟨5, 60, 30, 6/10, 10⟩, .closed, ⟨5, 0, 5, 0, 5⟩, 3⟩ .opened 9).counts
        = ⟨5, 0, 5, 0, 5⟩
    ∧ (beforeRequest ⟨⟨5, 60, 30, 6/10, 10⟩, .opened, ⟨5, 0, 5, 0, 5⟩, 3⟩ 120).cb.state
        = .halfOpen
    ∧ (beforeRequest ⟨⟨5, 60, 30, 6/10, 10⟩, .opened, ⟨5, 0, 5, 0, 5⟩, 3⟩ 120).cb.counts
        = ⟨5, 0, 5, 0, 5⟩
    ∧ (beforeRequest ⟨⟨5, 60, 30, 6/10, 10⟩, .halfOpen, ⟨5, 0, 5, 0, 5⟩, 120⟩ 121).err
        = some .circuitOpen := by
  refine ⟨?_, ?_, ?_, ?_⟩
  · exact (circuit_counts_carryover_c10
      ⟨⟨5, 60, 30, 6/10, 10⟩, .closed, ⟨5, 0, 5, 0, 5⟩, 3⟩ .opened 9).1 (by decide)
  · exact ((circuit_counts_carryover_c10
      ⟨⟨5, 60, 30, 6/10, 10⟩, .opened, ⟨5, 0, 5, 0, 5⟩, 3⟩ .opened 120).2.1
        rfl (by decide)).1
  · exact ((circuit_counts_carryover_c10
      ⟨⟨5, 60, 30, 6/10, 10⟩, .opened, ⟨5, 0, 5, 0, 5⟩, 3⟩ .opened 120).2.1
        rfl (by decide)).2
  · exact ((circuit_counts_carryover_c10
      ⟨⟨5, 60, 30, 6/10, 10⟩, .halfOpen, ⟨5, 0, 5, 0, 5⟩, 120⟩ .opened 121).2.2
        rfl).mpr (by decide)

/-- The circuit-breaker configuration of the C1 scenario: MaxRequests 2,
Interval 60000 ms, Timeout 100 ms, FailureThreshold 1/2, MinRequests 3. -/
def c1Config : CBConfig := ⟨2, 60000, 100, 1/2, 3⟩

/-- A fresh breaker with the C1 configuration, constructed at time 1. -/
def c1Breaker : CB := ⟨c1Config, .closed, ⟨0, 0, 0, 0, 0⟩, 1⟩

/-- The breaker after three failed calls at times 1, 2, 3: it has tripped. -/
def c1Tripped : CB :=
  runCB c1Breaker [(1, 1, some (.opErr 0)), (2, 2, some (.opErr 0)), (3, 3, some (.opErr 0))]

lemma runCB_nil (cb : CB) : runCB cb [] = cb := rfl

lemma c1_readyToTrip :
    readyToTrip ⟨⟨2, 60000, 100, 1/2, 3⟩, .closed, ⟨3, 0, 3, 0, 3⟩, 1⟩ = true := by
  simp only [readyToTrip, failureFrac]
  rw [if_neg (by omega), decide_eq_true_eq]
  norm_num

lemma c1_step1 :
    cbExecute c1Breaker 1 1 (some (.opErr 0))
      = ⟨⟨c1Config, .closed, ⟨1, 0, 1, 0, 1⟩, 1⟩, some (.opErr 0), true⟩ := by
  simp [cbExecute, beforeRequest, afterRequest, currentGeneration, onFailure,
    readyToTrip, setState, toNewGeneration, c1Breaker, c1Config]

lemma c1_step2 :
    cbExecute ⟨c1Config, .closed, ⟨1, 0, 1, 0, 1⟩, 1⟩ 2 2 (some (.opErr 0))
      = ⟨⟨c1Config, .closed, ⟨2, 0, 2, 0, 2⟩, 1⟩, some (.opErr 0), true⟩ := by
  simp [cbExecute, beforeRequest, afterRequest, currentGeneration, onFailure,
    readyToTrip, setState, toNewGeneration, c1Config]

lemma c1_step3 :
    cbExecute ⟨c1Config, .closed, ⟨2, 0, 2, 0, 2⟩, 1⟩ 3 3 (some (.opErr 0))
      = ⟨⟨c1Config, .opened, ⟨3, 0, 3, 0, 3⟩, 3⟩, some (.opErr 0), true⟩ := by
  have h := c1_readyToTrip
  simp only [one_div] at h
  simp [cbExecute, beforeRequest, afterRequest, currentGeneration, onFailure,
    setState, toNewGeneration, c1Config, h]

lemma c1Tripped_eq : c1Tripped = ⟨c1Config, .opened, ⟨3, 0, 3, 0, 3⟩, 3⟩ := by
  rw [c1Tripped, runCB_cons, c1_step1]
  rw [runCB_cons]
  rw [show (⟨⟨c1Config, .closed, ⟨1, 0, 1, 0, 1⟩, 1⟩, some (.opErr 0), true⟩
    : ExecResult).cb = ⟨c1Config, .closed, ⟨1, 0, 1, 0, 1⟩, 1⟩ from rfl, c1_step2]
  rw [runCB_cons]
  rw [show (⟨⟨c1Config, .closed, ⟨2, 0, 2, 0, 2⟩, 1⟩, some (.opErr 0), true⟩
    : ExecResult).cb = ⟨c1Config, .closed, ⟨2, 0, 2, 0, 2⟩, 1⟩ from rfl, c1_step3]
  rfl

lemma c1_probe :
    cbExecute ⟨c1Config, .opened, ⟨3, 0, 3, 0, 3⟩, 3⟩ 120 121 none
      = ⟨⟨c1Config, .halfOpen, ⟨3, 0, 3, 0, 3⟩, 120⟩, none, true⟩ := by
  simp [cbExecute, beforeRequest, afterRequest, currentGeneration, setState,
    toNewGeneration, onSuccess, c1Config]

/-- C1 (evaluation at the failing input): after three failures the breaker
is Open with `requests = 3`; the probing call at time 120 (timeout elapsed)
is admitted — the operation is invoked, no error is returned, the state
becomes HalfOpen, and `requests` is not incremented — but its success is
silently discarded: `beforeRequest` tags the probe with generation 0 while
the current generation is the HalfOpen entry time, so `afterRequest` drops
the report and `consecSuccess` and `totalSuccesses` stay 0 instead of
beginning to count toward re-closing. -/
theorem circuit_probe_success_discarded_c1 :
    c1Tripped.state = .opened
    ∧ c1Tripped.counts.requests = 3
    ∧ (cbExecute c1Tripped 120 121 none).invoked = true
    ∧ (cbExecute c1Tripped 120 121 none).err = none
    ∧ (cbExecute c1Tripped 120 121 none).cb.state = .halfOpen
    ∧ (cbExecute c1Tripped 120 121 none).cb.counts.requests = 3
    ∧ (cbExecute c1Tripped 120 121 none).cb.counts.consecSuccess = 0
    ∧ (cbExecute c1Tripped 120 121 none).cb.counts.totalSuccesses = 0 := by
  rw [c1Tripped_eq, c1_probe]
  exact ⟨rfl, rfl, rfl, rfl, rfl, rfl, rfl, rfl⟩

/-- The retry loop of `retry.Execute`.  `fn k` is the outcome of the k-th
invocation of the operation (`none` is success), `sr` the optional
`ShouldRetry` predicate.  Returns the final error together with the number
of invocations performed.  Backoff sleeping does not affect the result and
the context is never cancelled here (cancellation is a blocking-wait
concern); `lastErr` models the `lastErr` variable, `nil` at entry. -/
def retryAux (sr : Option (GoErr → Bool)) (fn : Nat → Option GoErr)
    (maxAttempts attempt : Nat) (lastErr : Option GoErr) : Option GoErr × Nat :=
  if _h : attempt < maxAttempts then
    match fn attempt with
    | none => (none, 1)
    | some e =>
      let blocked : Bool := match sr with | some p => ! p e | none => false
      if blocked then (some e, 1)
      else if attempt = maxAttempts - 1 then (some e, 1)
      else
        let r := retryAux sr fn maxAttempts (attempt + 1) (some e)
        (r.1, r.2 + 1)
  else (lastErr, 0)
termination_by maxAttempts - attempt

/-- `retry.Execute`, starting at attempt 0 with a nil `lastErr`. -/
def retryExec (maxAttempts : Nat) (sr : Option (GoErr → Bool))
    (fn : Nat → Option GoErr) : Option GoErr × Nat :=
  retryAux sr fn maxAttempts 0 none

lemma retryAux_count_le (sr : Option (GoErr → Bool)) (fn : Nat → Option GoErr) :
    ∀ (n ma a : Nat) (le : Option GoErr), ma ≤ a + n →
      (retryAux sr fn ma a le).2 ≤ n := by
  intro n
  induction n with
  | zero =>
      intro ma a le h
      rw [retryAux.eq_def, dif_neg (by omega)]
  | succ n ih =>
      intro ma a le h
      rw [retryAux.eq_def]
      by_cases hlt : a < ma
      · rw [dif_pos hlt]
        cases hfn : fn a with
        | none => simp
        | some e =>
          simp only []
          split_ifs
          · simp
          · simp
          · have := ih ma (a + 1) (some e) (by omega)
            simpa using Nat.succ_le_succ this
      · rw [dif_neg hlt]
        simp

lemma retryAux_first_success (sr : Option (GoErr → Bool)) (fn : Nat → Option GoErr)
    (ma : Nat) :
    ∀ (n a : Nat) (le : Option GoErr), a + n < ma →
      (∀ j, a ≤ j → j < a + n →
        ∃ e, fn j = some e ∧ (∀ p, sr = some p → p e = true)) →
      fn (a + n) = none →
      retryAux sr fn ma a le = (none, n + 1) := by
  intro n
  induction n with
  | zero =>
      intro a le hlt hpre hnone
      rw [retryAux.eq_def, dif_pos (by omega),
        show fn a = none from by simpa using hnone]
  | succ n ih =>
      intro a le hlt hpre hnone
      obtain ⟨e, hfe, hpe⟩ := hpre a (le_refl a) (by omega)
      have hrec := ih (a + 1) (some e) (by omega)
        (fun j hj1 hj2 => hpre j (by omega) (by omega))
        (by rw [show a + 1 + n = a + (n + 1) from by omega]; exact hnone)
      rw [retryAux.eq_def, dif_pos (by omega), hfe]
      rcases sr with _ | p
      · simp only [Bool.false_eq_true, if_false]
        rw [if_neg (by omega : ¬ a = ma - 1)]
        simp [hrec]
      · have hp : p e = true := hpe p rfl
        simp only [hp, Bool.not_true, Bool.false_eq_true, if_false]
        rw [if_neg (by omega : ¬ a = ma - 1)]
        simp [hrec]

lemma retryAux_all_fail (fn : Nat → Option GoErr) (ma : Nat) :
    ∀ (n a : Nat) (le : Option GoErr), a + n + 1 = ma →
      (∀ j, a ≤ j → j < ma → (fn j).isSome) →
      (retryAux none fn ma a le).1 = fn (ma - 1) := by
  intro n
  induction n with
  | zero =>
      intro a le hma hsome
      obtain ⟨e, hfe⟩ := Option.isSome_iff_exists.mp (hsome a (le_refl a) (by omega))
      rw [retryAux.eq_def, dif_pos (by omega), hfe]
      simp only [Bool.false_eq_true, if_false]
      rw [if_pos (by omega : a = ma - 1)]
      rw [show ma - 1 = a from by omega, hfe]
  | succ n ih =>
      intro a le hma hsome
      obtain ⟨e, hfe⟩ := Option.isSome_iff_exists.mp (hsome a (le_refl a) (by omega))
      rw [retryAux.eq_def, dif_pos (by omega), hfe]
      simp only [Bool.false_eq_true, if_false]
      rw [if_neg (by omega : ¬ a = ma - 1)]
      have hrec := ih (a + 1) (some e) (by omega) (fun j hj1 hj2 => hsome j (by omega) hj2)
      simpa using hrec

/-- C4: with `MaxAttempts = ma ≥ 1`, the retry loop invokes the operation at
most `ma` times; if the attempts before `k` all fail without the
`ShouldRetry` predicate blocking and attempt `k < ma` succeeds, the loop
returns nil after exactly `k + 1` invocations; and if every attempt fails
and no predicate is configured, it returns the last operation error itself —
in particular never the `ErrMaxRetriesExceeded` sentinel unless the
operation itself produced it. -/
theorem retry_bounded_last_error_c4 (ma : Nat) (sr : Option (GoErr → Bool))
    (fn : Nat → Option GoErr) (hma : 1 ≤ ma) :
    (retryExec ma sr fn).2 ≤ ma
    ∧ (∀ k, k < ma →
        (∀ j, j < k → ∃ e, fn j = some e ∧ (∀ p, sr = some p → p e = true)) →
        fn k = none →
        retryExec ma sr fn = (none, k + 1))
    ∧ (sr = none → (∀ j, j < ma → (fn j).isSome) →
        (retryExec ma sr fn).1 = fn (ma - 1))
    ∧ (sr = none → (∀ j, j < ma → (fn j).isSome) →
        fn (ma - 1) ≠ some .maxRetriesExceeded →
        (retryExec ma sr fn).1 ≠ some .maxRetriesExceeded) := by
  have hlast : sr = none → (∀ j, j < ma → (fn j).isSome) →
      (retryExec ma sr fn).1 = fn (ma - 1) := by
    intro hsr hsome
    subst hsr
    exact retryAux_all_fail fn ma (ma - 1) 0 none (by omega)
      (fun j hj1 hj2 => hsome j hj2)
  refine ⟨retryAux_count_le sr fn ma ma 0 none (by omega),
    fun k hk hpre hnone => ?_, hlast, fun hsr hsome hne => ?_⟩
  · have := retryAux_first_success sr fn ma k 0 none (by omega)
      (fun j hj1 hj2 => hpre j (by omega)) (by simpa using hnone)
    simpa [retryExec] using this
  · rw [hlast hsr hsome]
    exact hne

/-- Witness for C4: three attempts that all fail return the third
operation error after at most three invocations. -/
theorem retry_bounded_last_error_c4_witness :
    (retryExec 3 none (fun j => some (.opErr j))).2 ≤ 3
    ∧ (retryExec 3 none (fun j => some (.opErr j))).1 = some (.opErr 2) := by
  have h := retry_bounded_last_error_c4 3 none (fun j => some (.opErr j)) (by omega)
  exact ⟨h.1, by rw [h.2.2.1 rfl (fun j hj => rfl)]⟩

/-- Rate-limiter configuration; `rate` and the comparison values stand for
the Go `float64`s, `burst` for the Go `int`. -/
structure RLConfig where
  rate : ℚ
  burst : ℤ
  onRateLimitConfigured : Bool
deriving DecidableEq

/-- The token bucket, from `rateLimiter`: current (fractional) tokens and
the last refill timestamp, in seconds. -/
structure RL where
  config : RLConfig
  tokens : ℚ
  lastTime : ℚ
deriving DecidableEq

/-- `NewRateLimiter`: zero rate or burst fall back to the defaults 100 and
200; the bucket starts full at time `now`. -/
def mkRateLimiter (cfg : RLConfig) (now : ℚ) : RL :=
  let cfg := { cfg with
    rate := if cfg.rate = 0 then 100 else cfg.rate,
    burst := if cfg.burst = 0 then 200 else cfg.burst }
  { config := cfg, tokens := (cfg.burst : ℚ), lastTime := now }

/-- `refillTokens`: add `Rate · Δt` for the elapsed time since `lastTime`,
capping at `Burst`. -/
def refillTokens (rl : RL) (now : ℚ) : RL :=
  let elapsed := now - rl.lastTime
  let rl := { rl with lastTime := now }
  let tokens := rl.tokens + rl.config.rate * elapsed
  { rl with tokens := if (rl.config.burst : ℚ) < tokens then (rl.config.burst : ℚ) else tokens }

/-- Result of one `Allow` call: new state, admission verdict, and whether
the `OnRateLimit` callback fired. -/
structure AllowResult where
  rl : RL
  ok : Bool
  fired : Bool
deriving DecidableEq

/-- `Allow`: refill, then admit (consuming one token) when at least one
token is available, else fire `OnRateLimit` when configured and refuse. -/
def rlAllow (rl : RL) (now : ℚ) : AllowResult :=
  let rl := refillTokens rl now
  if 1 ≤ rl.tokens then ⟨{ rl with tokens := rl.tokens - 1 }, true, false⟩
  else ⟨rl, false, rl.config.onRateLimitConfigured⟩

/-- The verdicts of a sequence of `Allow` calls at the given times. -/
def allowSeq (rl : RL) (times : List ℚ) : List Bool :=
  match times with
  | [] => []
  | t :: ts => (rlAllow rl t).ok :: allowSeq (rlAllow rl t).rl ts

lemma ite_lt_min (b x : ℚ) : (if b < x then b else x) = min b x := by
  rcases lt_or_le b x with h | h
  · rw [if_pos h, min_eq_left h.le]
  · rw [if_neg (not_lt.mpr h), min_eq_right h]

/-- C7: `Allow` first refills to `min(Burst, tokens + Rate·Δt)`, then admits
exactly when that holds at least one token (consuming one), firing
`OnRateLimit` (when configured) otherwise; a fresh limiter with Rate 10 and
Burst 5 admits five consecutive calls and refuses the sixth. -/
theorem rate_limiter_allow_c7 :
    (∀ (rl : RL) (now : ℚ),
      ((rlAllow rl now).ok = true ↔
        1 ≤ min ((rl.config.burst : ℚ)) (rl.tokens + rl.config.rate * (now - rl.lastTime)))
      ∧ (rlAllow rl now).rl.tokens =
          (if 1 ≤ min ((rl.config.burst : ℚ)) (rl.tokens + rl.config.rate * (now - rl.lastTime))
           then min ((rl.config.burst : ℚ)) (rl.tokens + rl.config.rate * (now - rl.lastTime)) - 1
           else min ((rl.config.burst : ℚ)) (rl.tokens + rl.config.rate * (now - rl.lastTime)))
      ∧ (rlAllow rl now).rl.lastTime = now
      ∧ ((rlAllow rl now).fired = true ↔
          (¬ 1 ≤ min ((rl.config.burst : ℚ)) (rl.tokens + rl.config.rate * (now - rl.lastTime))
            ∧ rl.config.onRateLimitConfigured = true)))
    ∧ allowSeq (mkRateLimiter ⟨10, 5, false⟩ 0) [0, 0, 0, 0, 0, 0]
        = [true, true, true, true, true, false] := by
  constructor
  · intro rl now
    by_cases h1 : 1 ≤ min ((rl.config.burst : ℚ)) (rl.tokens + rl.config.rate * (now - rl.lastTime))
    · simp [rlAllow, refillTokens, ite_lt_min, h1]
    · simp [rlAllow, refillTokens, ite_lt_min, h1]
  · norm_num [allowSeq, rlAllow, refillTokens, mkRateLimiter]

/-- Bulkhead configuration needed by the admission logic. -/
structure BHConfig where
  maxConcurrent : Nat
  maxQueueSize : Nat
  onBulkheadFullConfigured : Bool
deriving DecidableEq

/-- Occupancy of the bulkhead's channels: `active` is `len(sem)`, `queued`
is `len(queue)`. -/
structure BHState where
  active : Nat
  queued : Nat
deriving DecidableEq

/-- Result of one bulkhead `Execute` admission: new occupancy, returned
error, whether the operation ran on the fast path, whether the caller was
parked in the queue, and whether `OnBulkheadFull` fired. -/
structure BhRes where
  st : BHState
  err : Option GoErr
  invoked : Bool
  waiting : Bool
  fired : Bool
deriving DecidableEq

/-- `NewBulkhead`: zero `MaxConcurrent` or `MaxQueueSize` fall back to the
defaults 10 and 100. -/
def mkBulkheadConfig (maxConcurrent maxQueueSize : Nat) (cfgFull : Bool) : BHConfig :=
  { maxConcurrent := if maxConcurrent = 0 then 10 else maxConcurrent,
    maxQueueSize := if maxQueueSize = 0 then 100 else maxQueueSize,
    onBulkheadFullConfigured := cfgFull }

/-- The admission decision of `bulkhead.Execute`: the non-blocking send on
`sem` succeeds iff an active slot is free; else the non-blocking send on
`queue` succeeds iff the queue has space (the caller then parks awaiting a
slot); else fire `OnBulkheadFull` when configured and return
`ErrBulkheadFull` without calling the operation. -/
def bhExecute (cfg : BHConfig) (st : BHState) : BhRes :=
  if st.active < cfg.maxConcurrent then
    ⟨⟨st.active + 1, st.queued⟩, none, true, false, false⟩
  else if st.queued < cfg.maxQueueSize then
    ⟨⟨st.active, st.queued + 1⟩, none, false, true, false⟩
  else
    ⟨st, some .bulkheadFull, false, false, cfg.onBulkheadFullConfigured⟩

/-- A burst of `n` arrivals with no releases in between, collecting each
arrival's error, fast-path flag and queued flag. -/
def bhBurst (cfg : BHConfig) (st : BHState) : Nat → List (Option GoErr × Bool × Bool)
  | 0 => []
  | n + 1 =>
      let r := bhExecute cfg st
      (r.err, r.invoked, r.waiting) :: bhBurst cfg r.st n

/-- C8: when both the active set and the wait queue are full, `Execute`
returns `BulkheadFull`, fires `OnBulkheadFull` exactly when configured, and
neither runs nor parks the operation; the occupancy is unchanged. -/
theorem bulkhead_reject_when_full_c8 (cfg : BHConfig) (st : BHState)
    (ha : cfg.maxConcurrent ≤ st.active) (hq : cfg.maxQueueSize ≤ st.queued) :
    bhExecute cfg st = ⟨st, some .bulkheadFull, false, false, cfg.onBulkheadFullConfigured⟩ := by
  rw [bhExecute, if_neg (by omega), if_neg (by omega)]

/-- Witness for C8: with MaxConcurrent 1 and MaxQueueSize 1, one caller
holding the slot and one parked in the queue, a third `Execute` is rejected
with `BulkheadFull` and the configured callback fires. -/
theorem bulkhead_reject_when_full_c8_witness :
    bhExecute ⟨1, 1, true⟩ ⟨1, 1⟩ = ⟨⟨1, 1⟩, some .bulkheadFull, false, false, true⟩ :=
  bulkhead_reject_when_full_c8 ⟨1, 1, true⟩ ⟨1, 1⟩ (by decide) (by decide)

/-- C2 fails on the code: `NewBulkhead` replaces `MaxQueueSize = 0` with the
default 100, so with both active slots busy a third arrival is parked in
the queue with no error — it does not return `BulkheadFull`. -/
theorem bulkhead_zero_queue_c2_counterexample :
    (mkBulkheadConfig 2 0 false).maxQueueSize = 100
    ∧ (bhExecute (mkBulkheadConfig 2 0 false) ⟨2, 0⟩).err = none
    ∧ ¬ (bhExecute (mkBulkheadConfig 2 0 false) ⟨2, 0⟩).err = some .bulkheadFull := by
  refine ⟨rfl, rfl, ?_⟩
  decide

/-- C2 as amended: constructed with MaxConcurrent 2 and MaxQueueSize 0, the
bulkhead's queue capacity is the default 100; of 5 concurrent arrivals the
first 2 run immediately and each later arrival is enqueued to wait — none
is rejected with `BulkheadFull`. -/
theorem bulkhead_zero_queue_c2_amended :
    bhBurst (mkBulkheadConfig 2 0 false) ⟨0, 0⟩ 5
      = [(none, true, false), (none, true, false),
         (none, false, true), (none, false, true), (none, false, true)] := by
  decide

/-- Which event wins the `select` race inside `timeout.Execute`: either the
operation's result arrives on the channel first, or the child cancellation
handle is done first with the given error (`deadlineExceeded` when the
derived deadline expired, otherwise the parent's own cancellation error,
which the child handle inherits). -/
inductive TimeoutRace where
  | opReturned (res : Option GoErr)
  | ctxDone (childErr : GoErr)
deriving DecidableEq

/-- `timeout.Execute`: propagate the operation's result unchanged when it
wins the race; when the cancellation handle is done first, return the
`Timeout` sentinel iff its error is `DeadlineExceeded`, else return the
handle's (parent's) error. -/
def timeoutExecute (race : TimeoutRace) : Option GoErr :=
  match race with
  | .opReturned res => res
  | .ctxDone ce => if ce = .deadlineExceeded then some .timeoutErr else some ce

/-- C9: the timeout wrapper returns the operation's result unchanged when
the operation finishes first, the `Timeout` sentinel when the deadline
expires first, and the parent's own cancellation error when the parent
cancels first for a non-deadline reason. -/
theorem timeout_result_c9 :
    (∀ res : Option GoErr, timeoutExecute (.opReturned res) = res)
    ∧ timeoutExecute (.ctxDone .deadlineExceeded) = some .timeoutErr
    ∧ timeoutExecute (.ctxDone .canceled) = some .canceled :=
  ⟨fun _ => rfl, rfl, rfl⟩

/-- Tags for the layers an executor can wrap around an operation. -/
inductive Layer where
  | rateLimiterL
  | bulkheadL
  | timeoutL
  | circuitBreakerL
  | retryL
  | userOp
deriving DecidableEq

/-- The invocation order of `ExecuteWithResult`, built exactly as the
source builds `wrappedFn`: the retry wrapper is applied first (innermost),
then circuit breaker, then timeout, then bulkhead; the rate limiter's
`Wait` runs before the wrapped function is invoked.  Since each layer's
`Execute` performs its admission and then calls its inner function, the
emitted trace lists the enabled layers outside-in, ending at the user
operation. -/
def executeWithResultTrace
    (hasRateLimiter hasBulkhead hasTimeout hasCircuitBreaker hasRetry : Bool) : List Layer :=
  let wrappedFn : List Layer := [Layer.userOp]
  let wrappedFn := if hasRetry then Layer.retryL :: wrappedFn else wrappedFn
  let wrappedFn := if hasCircuitBreaker then Layer.circuitBreakerL :: wrappedFn else wrappedFn
  let wrappedFn := if hasTimeout then Layer.timeoutL :: wrappedFn else wrappedFn
  let wrappedFn := if hasBulkhead then Layer.bulkheadL :: wrappedFn else wrappedFn
  if hasRateLimiter then Layer.rateLimiterL :: wrappedFn else wrappedFn

/-- The fixed order stated by the spec: Rate Limiter → Bulkhead → Timeout →
Circuit Breaker → Retry → user operation, with disabled layers absent. -/
def specLayerOrder
    (hasRateLimiter hasBulkhead hasTimeout hasCircuitBreaker hasRetry : Bool) : List Layer :=
  (if hasRateLimiter then [Layer.rateLimiterL] else [])
    ++ (if hasBulkhead then [Layer.bulkheadL] else [])
    ++ (if hasTimeout then [Layer.timeoutL] else [])
    ++ (if hasCircuitBreaker then [Layer.circuitBreakerL] else [])
    ++ (if hasRetry then [Layer.retryL] else [])
    ++ [Layer.userOp]

/-- C3: for every subset of enabled layers, the composition built by
`ExecuteWithResult` invokes the layers in exactly the spec's fixed order,
with every disabled layer absent. -/
theorem executor_layer_order_c3 :
    ∀ hasRateLimiter hasBulkhead hasTimeout hasCircuitBreaker hasRetry : Bool,
      executeWithResultTrace hasRateLimiter hasBulkhead hasTimeout hasCircuitBreaker hasRetry
        = specLayerOrder hasRateLimiter hasBulkhead hasTimeout hasCircuitBreaker hasRetry := by
  intro a b c d e
  cases a <;> cases b <;> cases c <;> cases d <;> cases e <;> rfl

end Resilience
